import Mathlib

/-!
Verification of the raster-statistics engine and batch orchestration of
`cloud-convert` (files `rast_qaqc.rs`, `batch_convert.rs`).

Embedding conventions:
* A floating-point sample is `Option ℚ`: `none` stands for a non-finite value
  (NaN or ±Infinity, exactly the values with `is_finite() == false`), and
  `some q` for a finite value, whose arithmetic is modelled exactly over ℚ.
  All the concrete values appearing in the claims (1.0, 2.0, 9.0, 0.25, …)
  are exactly representable in binary floating point and the accumulations
  on them are exact, so the rational model is faithful there.
* Machine counters (`u64`) are ℕ; sizes (`usize`) are ℕ with truncated
  subtraction mirroring the in-bounds `usize` subtractions of the source.
* A fallible per-band / per-file operation is `Except String α`.
* Derived statistics that can be NaN are `Option ℚ` (`none` = NaN); the
  standard deviation and the coefficient of variation are irrational reals
  (`sqrt` of a rational), so they are characterised in the theorems by
  applying `Real.sqrt` to the `variance` field rather than stored as fields.
-/

namespace CloudConvert

/-- `T::from_f64(1e-6).unwrap()`, the absolute nodata tolerance of
`compute_stats_generic` (rast_qaqc.rs line 124). -/
def epsilon : ℚ := 1 / 1000000

/-- `f32::MAX = (2 - 2^-23)·2^127`, the value of `T::max_value()` for `T = f32`
(num-traits `Float::max_value`, the largest finite `f32`), exact as a rational. -/
def f32MaxValue : ℚ := 2 ^ 128 - 2 ^ 104

/-- `f32::MIN = -f32::MAX`, the value of `T::min_value()` for `T = f32`
(num-traits `Float::min_value`, the smallest finite `f32`). -/
def f32MinValue : ℚ := -(2 ^ 128 - 2 ^ 104)

/-- Rust float `abs` on a finite value (used in the nodata comparison).
Spelled with `if` so that the kernel evaluates it on concrete inputs. -/
def ratAbs (q : ℚ) : ℚ := if q < 0 then -q else q

/-- Rust float `min` restricted to the finite values it receives here. -/
def fmin (a b : ℚ) : ℚ := if a ≤ b then a else b

/-- Rust float `max` restricted to the finite values it receives here. -/
def fmax (a b : ℚ) : ℚ := if a ≤ b then b else a

/-- The mutable accumulators of `compute_stats_generic`
(rast_qaqc.rs lines 111-121): counts, running sums, running min/max. -/
structure AccState where
  valid_count : ℕ
  nodata_count : ℕ
  nan_count : ℕ
  sum : ℚ
  sum_sq : ℚ
  min : ℚ
  max : ℚ
  deriving Repr, DecidableEq

/-- Initial accumulator state: counts and sums zero, `min = T::max_value()`,
`max = T::min_value()` (rast_qaqc.rs lines 112-121); `tMin`/`tMax` are the
element type's smallest/largest finite values. -/
def initState (tMin tMax : ℚ) : AccState :=
  { valid_count := 0, nodata_count := 0, nan_count := 0,
    sum := 0, sum_sq := 0, min := tMax, max := tMin }

/-- Result of classifying one sample (the body of `process_buffer`,
rast_qaqc.rs lines 126-144, and the identical inline classification of the
quantile branch, lines 153-169). -/
inductive SampleClass where
  | nonFinite
  | nodataMatch
  | validSample (q : ℚ)
  deriving Repr, DecidableEq

/-- Classification of one sample `v` against the configured nodata value:
non-finite first, then `|v - nodata| < epsilon`, else valid. -/
def classify (nodata_val : Option ℚ) (v : Option ℚ) : SampleClass :=
  match v with
  | none => .nonFinite
  | some q =>
    match nodata_val with
    | some nd => if ratAbs (q - nd) < epsilon then .nodataMatch else .validSample q
    | none => .validSample q

/-- One step of the accumulation closure `process_buffer`
(rast_qaqc.rs lines 126-144): bump exactly one of the three counters and,
for a valid sample, update `sum`, `sum_sq`, `min`, `max`. -/
def processVal (nodata_val : Option ℚ) (st : AccState) (v : Option ℚ) : AccState :=
  match classify nodata_val v with
  | .nonFinite => { st with nan_count := st.nan_count + 1 }
  | .nodataMatch => { st with nodata_count := st.nodata_count + 1 }
  | .validSample q =>
    { st with valid_count := st.valid_count + 1,
              sum := st.sum + q,
              sum_sq := st.sum_sq + q * q,
              min := fmin st.min q,
              max := fmax st.max q }

/-- `process_buffer(data)`: fold the per-sample step over a window buffer. -/
def process_buffer (nodata_val : Option ℚ) (st : AccState) (data : List (Option ℚ)) : AccState :=
  data.foldl (processVal nodata_val) st

/-- One raster band as seen through the band-reader adapter: size, native
block shape, optional nodata value, and the pixel grid itself
(`sample x y` is the pixel at column `x`, row `y`). -/
structure Band where
  cols : ℕ
  rows : ℕ
  block_x : ℕ
  block_y : ℕ
  nodata : Option ℚ
  sample : ℕ → ℕ → Option ℚ

/-- `band.read_as((x, y), (w, h), (w, h), None)`: the row-major flat buffer of
the `w × h` window whose top-left pixel is `(x, y)`. -/
def read_as (b : Band) (x y w h : ℕ) : List (Option ℚ) :=
  (List.range h).flatMap (fun j => (List.range w).map (fun i => b.sample (x + i) (y + j)))

/-- `band.read_band_as()`: the whole band materialised as one buffer
(rast_qaqc.rs line 149). -/
def read_band_as (b : Band) : List (Option ℚ) :=
  read_as b 0 0 b.cols b.rows

/-- The index sequence of Rust's `(0..stop).step_by(step)`:
`0, step, 2·step, …` strictly below `stop`; there are `⌈stop/step⌉ =
(stop + step - 1) / step` such indices. Empty when `step = 0` (Rust would
panic there; every use gives `step ≥ 1`). -/
def stepBy (stop step : ℕ) : List ℕ :=
  (List.range ((stop + step - 1) / step)).map (· * step)

/-- The row-wise branch of `compute_stats_generic` (rast_qaqc.rs lines
183-188): one `read_as` of a full scanline per row, each fed to
`process_buffer`. -/
def row_wise_pass (b : Band) (st0 : AccState) : AccState :=
  (List.range b.rows).foldl
    (fun st row => process_buffer b.nodata st (read_as b 0 row b.cols 1)) st0

/-- The block-wise branch of `compute_stats_generic` (rast_qaqc.rs lines
189-204): traverse the native block grid, clip each window's width/height
to the remaining columns/rows, and feed each clipped window to
`process_buffer`. -/
def block_wise_pass (b : Band) (st0 : AccState) : AccState :=
  (stepBy b.rows b.block_y).foldl
    (fun st y =>
      (stepBy b.cols b.block_x).foldl
        (fun st x =>
          process_buffer b.nodata st
            (read_as b x y (min b.block_x (b.cols - x)) (min b.block_y (b.rows - y))))
        st)
    st0

/-- The quantile branch's single pass over the fully materialised band
(rast_qaqc.rs lines 147-170): the same classification as `process_buffer`
(the source spells it out inline, with identical logic), additionally
pushing each valid sample onto `valid_values` in read order.  The source
sets `valid_count = valid_values.len()` after the loop, which equals the
count accumulated here step by step. -/
def full_pass (b : Band) (st0 : AccState) : AccState × List ℚ :=
  (read_band_as b).foldl
    (fun acc v =>
      match classify b.nodata v with
      | .validSample q => (processVal b.nodata acc.1 v, acc.2 ++ [q])
      | _ => (processVal b.nodata acc.1 v, acc.2))
    (st0, [])

/-- Rust's `f32::round` (half away from zero) restricted to the non-negative
arguments it receives here: `⌊q + 1/2⌋`. -/
def rustRound (q : ℚ) : ℤ := (q + 1 / 2).floor

/-- `percentile(sorted, p)` (rast_qaqc.rs lines 93-99): index
`round((len - 1)·p)` cast to `usize`, then `sorted.get(idx)` — `none` models
the `f32::NAN` returned on an empty slice or an out-of-bounds index. -/
def percentile (sorted : List ℚ) (p : ℚ) : Option ℚ :=
  if sorted.isEmpty then none
  else sorted.get? (rustRound ((sorted.length - 1 : ℕ) * p)).toNat

/-- The `RasterStats` record (rast_qaqc.rs lines 19-36) restricted to its
numeric payload.  `mean`, `variance`, `percent_valid` are `none` exactly when
the source's f64 arithmetic produces NaN (0/0); `q1`/`median`/`q3` are the
source's `Option<f32>` — outer `none` = Rust `None`, inner `none` = NaN. -/
structure RasterStats where
  valid_count : ℕ
  nodata_count : ℕ
  nan_count : ℕ
  mean : Option ℚ
  min : ℚ
  max : ℚ
  variance : Option ℚ
  percent_valid : Option ℚ
  q1 : Option (Option ℚ)
  median : Option (Option ℚ)
  q3 : Option (Option ℚ)
  deriving Repr, DecidableEq

/-- The final derivation block of `compute_stats_generic` (rast_qaqc.rs lines
206-236).  When `valid_count = 0` the source computes `0.0 / 0.0 = NaN` for
the mean (the sums are still zero then), `NaN` for the variance (`NaN < 0.0`
is false, so the clamp keeps NaN), modelled as `none`; otherwise
`variance = sum_sq/valid - mean²` clamped at zero.  `percent_valid` divides
by `cols·rows` (NaN/±Inf, i.e. `none`, only for an empty band). -/
def finalize (cols rows : ℕ) (st : AccState)
    (q1 median q3 : Option (Option ℚ)) : RasterStats :=
  { valid_count := st.valid_count, nodata_count := st.nodata_count,
    nan_count := st.nan_count,
    mean := if st.valid_count = 0 then none else some (st.sum / st.valid_count),
    min := st.min, max := st.max,
    variance :=
      if st.valid_count = 0 then none
      else
        some (let v := st.sum_sq / st.valid_count - (st.sum / st.valid_count) ^ 2
              if v < 0 then 0 else v),
    percent_valid :=
      if cols * rows = 0 then none
      else some ((st.valid_count : ℚ) / (cols * rows : ℕ) * 100),
    q1 := q1, median := median, q3 := q3 }

/-- The accumulator state at the end of whichever read strategy
`compute_stats_generic` selects (quantiles → full read; `block_y = 1` →
row-wise; otherwise block-wise). -/
def pass_acc (tMin tMax : ℚ) (b : Band) (quantiles : Bool) : AccState :=
  if quantiles then (full_pass b (initState tMin tMax)).1
  else if b.block_y = 1 then row_wise_pass b (initState tMin tMax)
  else block_wise_pass b (initState tMin tMax)

/-- `compute_stats_generic::<T>(band, quantiles)` (rast_qaqc.rs lines
101-237); `tMin`/`tMax` stand for `T::min_value()`/`T::max_value()`.
In the quantile branch the source sorts `valid_values` ascending with
`sort_unstable_by(partial_cmp)` (total on the finite values collected) and
sets the three quartiles only when `valid_values` is non-empty. -/
def compute_stats_generic (tMin tMax : ℚ) (b : Band) (quantiles : Bool) : RasterStats :=
  let st0 := initState tMin tMax
  if quantiles then
    let p := full_pass b st0
    if p.2.isEmpty then finalize b.cols b.rows p.1 none none none
    else
      let sorted := p.2.insertionSort (· ≤ ·)
      finalize b.cols b.rows p.1
        (some (percentile sorted (1 / 4)))
        (some (percentile sorted (1 / 2)))
        (some (percentile sorted (3 / 4)))
  else if b.block_y = 1 then
    finalize b.cols b.rows (row_wise_pass b st0) none none none
  else
    finalize b.cols b.rows (block_wise_pass b st0) none none none

/-- `f64::MAX = (2 - 2^-52)·2^1023`, the value of `T::max_value()` for `T = f64`. -/
def f64MaxValue : ℚ := 2 ^ 1024 - 2 ^ 971

/-- `f64::MIN = -f64::MAX`, the value of `T::min_value()` for `T = f64`. -/
def f64MinValue : ℚ := -(2 ^ 1024 - 2 ^ 971)

/-- `compute_stats` (rast_qaqc.rs lines 239-244): a `Float64` band runs the
accumulator at f64, every other element type at f32.  With both float widths
embedded exactly in ℚ, the dispatch selects only the element type's
`min_value`/`max_value` sentinels. -/
def compute_stats (isFloat64 : Bool) (b : Band) (all_stats : Bool) : RasterStats :=
  if isFloat64 then compute_stats_generic f64MinValue f64MaxValue b all_stats
  else compute_stats_generic f32MinValue f32MaxValue b all_stats

/-- One read window `(x, y, width, height)` of a band. -/
structure Window where
  x : ℕ
  y : ℕ
  width : ℕ
  height : ℕ
  deriving Repr, DecidableEq

/-- The window sequence the spec's words describe for the row-wise strategy:
one full scanline per row, rows in order (spec §4.3, second strategy bullet). -/
def specRowWindows (b : Band) : List Window :=
  (List.range b.rows).map (fun row => { x := 0, y := row, width := b.cols, height := 1 })

/-- The window sequence the spec's words describe for the block-wise strategy:
the native block grid, each window's width/height clipped to the remaining
columns/rows at the grid edge (spec §4.3, third strategy bullet). -/
def specBlockWindows (b : Band) : List Window :=
  (stepBy b.rows b.block_y).flatMap (fun y =>
    (stepBy b.cols b.block_x).map (fun x =>
      { x := x, y := y,
        width := min b.block_x (b.cols - x),
        height := min b.block_y (b.rows - y) }))

/-- Feeding a window sequence through the single classification-and-
accumulation step `process_buffer`. -/
def window_pass (b : Band) (st0 : AccState) (ws : List Window) : AccState :=
  ws.foldl (fun st w => process_buffer b.nodata st (read_as b w.x w.y w.width w.height)) st0

/-- `valid_count + nodata_count + nan_count` of an accumulator state. -/
def countsTotal (st : AccState) : ℕ :=
  st.valid_count + st.nodata_count + st.nan_count

/-- The valid samples the quantile branch collects, as a filter of the full
buffer: exactly the samples classified `validSample`, in read order. -/
def validSamples (b : Band) : List ℚ :=
  (read_band_as b).filterMap (fun v =>
    match classify b.nodata v with
    | .validSample q => some q
    | _ => none)

/-- `compute_all_bands` (rast_qaqc.rs lines 246-259): bands are processed in
index order; each `dataset.rasterband(i)?` / `compute_stats(...)?` outcome
enters as one `Except`-valued element of the list, and the `?` operator
propagates the first error, producing no stats list at all for the file. -/
def compute_all_bands (band_results : List (Except String RasterStats)) :
    Except String (List RasterStats) :=
  match band_results with
  | [] => .ok []
  | r :: rest =>
    match r with
    | .error e => .error e
    | .ok s =>
      match compute_all_bands rest with
      | .error e => .error e
      | .ok ss => .ok (s :: ss)

/-- A directory entry as the walkers see it: its path, the result of
`path.extension().and_then(|e| e.to_str())`, and whether it is a regular
file.  Paths stay abstract (`P`); extension logic is on the string. -/
structure FsEntry (P : Type) where
  path : P
  ext : Option String
  isFile : Bool

/-- `to_lowercase`/`to_ascii_lowercase` on extension strings (they agree on
ASCII), modelled on the character list so the kernel can evaluate it. -/
def asciiLower (s : String) : String := ⟨s.data.map Char.toLower⟩

/-- The extension filter shared by both walkers
(batch_convert.rs lines 42-49, rast_qaqc.rs lines 365-370):
lowercase the extension and test membership in the allow-list. -/
def extMatches (extensions : List String) (ext : Option String) : Bool :=
  (ext.map (fun e => extensions.contains (asciiLower e))).getD false

/-- Raster extensions of `batch_convert_cog` (batch_convert.rs line 109). -/
def cog_extensions : List String := ["tif", "tiff", "tff", "asc", "img"]

/-- Vector extensions of `batch_convert_gpq` (batch_convert.rs line 123). -/
def gpq_extensions : List String := ["gpkg", "json", "geojson", "fgb", "kml", "gpx", "shp"]

/-- `SUPPORTED_EXTENSIONS` of the QAQC walker (rast_qaqc.rs line 321). -/
def qaqc_extensions : List String := ["tif", "tiff", "asc", "img", "vrt"]

deriving instance DecidableEq for Except

/-- `BatchSummary` (batch_convert.rs lines 8-11). -/
structure BatchSummary (P : Type) where
  successful : List (P × String)
  failed : List (P × String)
  deriving DecidableEq

/-- `batch_convert` (batch_convert.rs lines 13-102).  `is_dir` is the
`input_path.is_dir()` probe, `out_dir_ok` the success of the optional
`create_dir_all`, `entries` the `read_dir` listing, and `converter` the
per-file operation with its resolved output path already applied (the
resolution `output_dir.join(file_name)` is pure path manipulation).
`rayon`'s indexed `par_iter().map().collect()` preserves input order, so the
parallel map is the sequential map of the same function, and `partition`
splits it preserving relative order — modelled by the two `filterMap`s. -/
def batch_convert {P : Type} (is_dir : Bool) (out_dir_ok : Bool)
    (entries : List (FsEntry P)) (extensions : List String)
    (converter : P → Except String String) : Except String (BatchSummary P) :=
  if !is_dir then .error "input path is not a directory"
  else if !out_dir_ok then .error "failed to create output directory"
  else
    let files := (entries.filter (fun e => extMatches extensions e.ext)).map (fun e => e.path)
    if files.isEmpty then .error "no supported files found"
    else
      let results := files.map (fun p =>
        match converter p with
        | .ok output => Except.ok (p, output)
        | .error e => Except.error (p, e))
      .ok { successful := results.filterMap (fun r =>
              match r with
              | .ok s => some s
              | .error _ => none),
            failed := results.filterMap (fun r =>
              match r with
              | .ok _ => none
              | .error f => some f) }

/-- `OutputFormat` (rast_qaqc.rs lines 323-327). -/
inductive OutputFormat where
  | parquet
  | csv
  deriving Repr, DecidableEq

/-- `OutputFormat::to_string` (rast_qaqc.rs lines 344-351). -/
def formatName : OutputFormat → String
  | .parquet => "parquet"
  | .csv => "csv"

/-- The file name `batch_qaqc` writes its result table to:
`directory.join("qaqc.parquet")` (rast_qaqc.rs line 406), chosen before and
independently of the `match output_format` that picks the writer
(lines 408-415) — the same name for the CSV and the Parquet writer. -/
def qaqcOutputFileName (_format : OutputFormat) : String := "qaqc.parquet"

/-- The failure modes `batch_qaqc` itself can produce. -/
inductive QaqcError where
  | noFilesFound
  | assertNoDataframes
  deriving Repr, DecidableEq

/-- `pct_check.clamp(0.0, 100.0)` (rast_qaqc.rs line 359). -/
def clampPct (pct : ℚ) : ℚ :=
  if pct < 0 then 0 else if 100 < pct then 100 else pct

/-- `((pct / 100.0) * n_total as f32).ceil() as usize` (rast_qaqc.rs line 376). -/
def nSampleOf (pct : ℚ) (n_total : ℕ) : ℕ :=
  ⌈clampPct pct / 100 * (n_total : ℚ)⌉.toNat

/-- The QAQC walker's file list (rast_qaqc.rs lines 360-371): regular files
whose extension is in `SUPPORTED_EXTENSIONS`, case-insensitively. -/
def qaqcFiles {P : Type} (entries : List (FsEntry P)) : List P :=
  ((entries.filter (fun e => e.isFile)).filter
    (fun e => extMatches qaqc_extensions e.ext)).map (fun e => e.path)

/-- `batch_qaqc` (rast_qaqc.rs lines 353-422).  The walk yields `entries`;
the uniform `shuffle` is nondeterministic, so the shuffled file list enters
as the parameter `shuffled` (theorems relate it to `qaqcFiles entries` by a
permutation hypothesis); per-file statistics computation
(`compute_all_bands`, I/O) enters as `compute`, returning one dataframe `D`
per file.  A failed file is dropped by the `filter_map` (`Err(_) => None`,
line 395); `assert!(!dfs.is_empty())` (line 400) is the
`assertNoDataframes` failure; on success the table of the concatenated
frames is written to `qaqcOutputFileName output_format`. -/
def batch_qaqc {P D : Type} (entries : List (FsEntry P)) (shuffled : List P)
    (compute : P → Except String D) (pct_check : ℚ) (output_format : OutputFormat) :
    Except QaqcError (String × List D) :=
  let n_total := (qaqcFiles entries).length
  if n_total = 0 then .error .noFilesFound
  else
    let n_sample := nSampleOf pct_check n_total
    let sample_files := shuffled.take n_sample
    let dfs := sample_files.filterMap (fun p =>
      match compute p with
      | .ok df => some df
      | .error _ => none)
    if dfs.isEmpty then .error .assertNoDataframes
    else .ok (qaqcOutputFileName output_format, dfs)

/-- The 2×2 band of the spec's QAQC scenario: samples `[1.0, 2.0, NaN, 9.0]`
in row-major order, configured nodata 9.0, scanline layout (`block_y = 1`). -/
def bandC5 : Band :=
  { cols := 2, rows := 2, block_x := 2, block_y := 1, nodata := some 9,
    sample := fun x y =>
      if y = 0 then (if x = 0 then some 1 else some 2)
      else (if x = 0 then none else some 9) }

/-- A 3×2 band in a 2×2-block tiled layout: one NaN at the origin, one
nodata hit at (2,1) (value 4), four valid samples. -/
def bandTiled : Band :=
  { cols := 3, rows := 2, block_x := 2, block_y := 2, nodata := some 4,
    sample := fun x y => if x = 0 ∧ y = 0 then none else some (x + 2 * y) }

/-- A 2×1 scanline band with no valid sample (both samples NaN). -/
def bandAllNaN : Band :=
  { cols := 2, rows := 1, block_x := 2, block_y := 1, nodata := none,
    sample := fun _ _ => none }

/-- A concrete directory listing for the batch theorems: paths are numbers;
entries 0 and 1 are rasters (one with an uppercase extension), entry 2 is
not, entry 3 is a matching extension but not a regular file. -/
def demoEntries : List (FsEntry ℕ) :=
  [{ path := 0, ext := some "tif", isFile := true },
   { path := 1, ext := some "TIF", isFile := true },
   { path := 2, ext := some "txt", isFile := true },
   { path := 3, ext := some "tif", isFile := false }]

/-- A per-file statistics computation that fails on path 0 with one message
and succeeds elsewhere (the dataframe of path `p` is represented by `p`). -/
def demoComputeA : ℕ → Except String ℕ :=
  fun p => if p = 0 then .error "read failure A" else .ok p

/-- The same computation failing on path 0 with a different message. -/
def demoComputeB : ℕ → Except String ℕ :=
  fun p => if p = 0 then .error "read failure B" else .ok p

/-- A converter that fails on path 0 and converts every other path. -/
def demoConverter : ℕ → Except String String :=
  fun p => if p = 0 then .error "corrupt file" else .ok "converted"

/-! ### Helper lemmas -/

theorem countsTotal_processVal (nd : Option ℚ) (st : AccState) (v : Option ℚ) :
    countsTotal (processVal nd st v) = countsTotal st + 1 := by
  unfold processVal
  cases classify nd v <;> simp [countsTotal] <;> omega

theorem countsTotal_process_buffer (nd : Option ℚ) (st : AccState) (l : List (Option ℚ)) :
    countsTotal (process_buffer nd st l) = countsTotal st + l.length := by
  induction l generalizing st with
  | nil => simp [process_buffer]
  | cons a t ih =>
    have : process_buffer nd st (a :: t) = process_buffer nd (processVal nd st a) t := rfl
    rw [this, ih, countsTotal_processVal]
    simp
    omega

theorem length_read_as (b : Band) (x y w h : ℕ) :
    (read_as b x y w h).length = h * w := by
  simp [read_as, List.length_flatMap, Function.comp_def, List.map_const']

theorem foldl_flatMap_eq {α β γ : Type} (l : List α) (g : α → List β)
    (f : γ → β → γ) (i : γ) :
    (l.flatMap g).foldl f i = l.foldl (fun s a => (g a).foldl f s) i := by
  induction l generalizing i with
  | nil => simp
  | cons a t ih => simp [List.flatMap_cons, List.foldl_append, ih]

theorem sum_flatMap_eq (l : List ℕ) (f : ℕ → List ℕ) :
    (l.flatMap f).sum = (l.map (fun a => (f a).sum)).sum := by
  induction l with
  | nil => simp
  | cons a t ih => simp [List.flatMap_cons, ih]

theorem row_wise_pass_eq_window (b : Band) (st0 : AccState) :
    row_wise_pass b st0 = window_pass b st0 (specRowWindows b) := by
  unfold row_wise_pass window_pass specRowWindows
  rw [List.foldl_map]

theorem block_wise_pass_eq_window (b : Band) (st0 : AccState) :
    block_wise_pass b st0 = window_pass b st0 (specBlockWindows b) := by
  unfold block_wise_pass window_pass specBlockWindows
  rw [foldl_flatMap_eq]
  congr 1
  funext st y
  rw [List.foldl_map]

theorem countsTotal_window_pass (b : Band) (st0 : AccState) (ws : List Window) :
    countsTotal (window_pass b st0 ws)
      = countsTotal st0 + (ws.map (fun w => w.height * w.width)).sum := by
  induction ws generalizing st0 with
  | nil => simp [window_pass]
  | cons w t ih =>
    have : window_pass b st0 (w :: t)
        = window_pass b (process_buffer b.nodata st0 (read_as b w.x w.y w.width w.height)) t := rfl
    rw [this, ih, countsTotal_process_buffer, length_read_as]
    simp
    omega

theorem countsTotal_initState (tMin tMax : ℚ) :
    countsTotal (initState tMin tMax) = 0 := rfl

theorem stepBy_stop_zero (step : ℕ) : stepBy 0 step = [] := by
  unfold stepBy
  rcases Nat.eq_zero_or_pos step with h | h
  · subst h; simp
  · rw [Nat.div_eq_of_lt (by omega)]
    simp

theorem stepBy_cons (stop step : ℕ) (h0 : 0 < stop) (hs : 0 < step) :
    stepBy stop step = 0 :: (stepBy (stop - step) step).map (· + step) := by
  unfold stepBy
  have hc : (stop + step - 1) / step = (stop - step + step - 1) / step + 1 := by
    rcases le_or_lt step stop with h | h
    · have e1 : stop + step - 1 = (stop - 1) + step := by omega
      have e2 : stop - step + step - 1 = stop - 1 := by omega
      rw [e1, e2, Nat.add_div_right _ hs]
    · have e1 : stop - step = 0 := by omega
      rw [e1]
      have : (0 + step - 1) / step = 0 := Nat.div_eq_of_lt (by omega)
      rw [this]
      have hlow : step ≤ stop + step - 1 := by omega
      have hhigh : stop + step - 1 < 2 * step := by omega
      have : (stop + step - 1) / step = 1 := by
        rw [Nat.div_eq_sub_div hs hlow, Nat.div_eq_of_lt (by omega)]
      omega
  rw [hc, List.range_succ_eq_map]
  simp only [List.map_cons, Nat.zero_mul, List.map_map]
  congr 1
  apply List.map_congr_left
  intro i _
  simp [Function.comp_def, Nat.succ_eq_add_one]
  ring

theorem stepBy_clipped_sum (step : ℕ) (hs : 0 < step) :
    ∀ stop, ((stepBy stop step).map (fun k => min step (stop - k))).sum = stop := by
  intro stop
  induction stop using Nat.strong_induction_on with
  | _ stop ih =>
    rcases Nat.eq_zero_or_pos stop with h0 | h0
    · rw [h0, stepBy_stop_zero]
      simp
    · rw [stepBy_cons stop step h0 hs]
      simp only [List.map_cons, List.map_map, Function.comp_def, Nat.sub_zero, List.sum_cons]
      have harg : ∀ k : ℕ, stop - (k + step) = stop - step - k := by omega
      have hmap : ((stepBy (stop - step) step).map (fun k => min step (stop - (k + step))))
          = (stepBy (stop - step) step).map (fun k => min step (stop - step - k)) := by
        apply List.map_congr_left
        intro k _
        rw [harg k]
      rw [hmap, ih (stop - step) (by omega)]
      omega

theorem mem_stepBy (stop step k : ℕ) (hs : 0 < step) (hk : k ∈ stepBy stop step) :
    step ∣ k ∧ k < stop := by
  unfold stepBy at hk
  rcases List.mem_map.mp hk with ⟨i, hi, rfl⟩
  rcases List.mem_range.mp hi with hilt
  refine ⟨⟨i, by ring⟩, ?_⟩
  have hstep : (i + 1) * step ≤ ((stop + step - 1) / step) * step :=
    Nat.mul_le_mul_right step (Nat.succ_le_of_lt hilt)
  have hdiv : ((stop + step - 1) / step) * step ≤ stop + step - 1 := Nat.div_mul_le_self _ _
  have : i * step + step ≤ stop + step - 1 := by
    calc i * step + step = (i + 1) * step := by ring
    _ ≤ ((stop + step - 1) / step) * step := hstep
    _ ≤ stop + step - 1 := hdiv
  omega

theorem specRowWindows_area (b : Band) :
    ((specRowWindows b).map (fun w => w.height * w.width)).sum = b.rows * b.cols := by
  simp [specRowWindows, List.map_map, Function.comp_def, List.map_const']

theorem specBlockWindows_area (b : Band) (hx : 0 < b.block_x) (hy : 0 < b.block_y) :
    ((specBlockWindows b).map (fun w => w.height * w.width)).sum = b.rows * b.cols := by
  unfold specBlockWindows
  rw [List.map_flatMap, sum_flatMap_eq]
  have hinner : ∀ y, (((stepBy b.cols b.block_x).map
      (fun x => (⟨x, y, min b.block_x (b.cols - x), min b.block_y (b.rows - y)⟩ : Window))).map
        (fun w => w.height * w.width)).sum
      = min b.block_y (b.rows - y) * b.cols := by
    intro y
    rw [List.map_map]
    have : ((fun w : Window => w.height * w.width) ∘
        (fun x => (⟨x, y, min b.block_x (b.cols - x), min b.block_y (b.rows - y)⟩ : Window)))
        = fun x => min b.block_y (b.rows - y) * min b.block_x (b.cols - x) := rfl
    rw [this, List.sum_map_mul_left, stepBy_clipped_sum b.block_x hx b.cols]
  have houter : ((stepBy b.rows b.block_y).map (fun y => (((stepBy b.cols b.block_x).map
      (fun x => (⟨x, y, min b.block_x (b.cols - x), min b.block_y (b.rows - y)⟩ : Window))).map
        (fun w => w.height * w.width)).sum))
      = (stepBy b.rows b.block_y).map (fun y => min b.block_y (b.rows - y) * b.cols) := by
    apply List.map_congr_left
    intro y _
    exact hinner y
  calc ((stepBy b.rows b.block_y).map _).sum
      = ((stepBy b.rows b.block_y).map (fun y => min b.block_y (b.rows - y) * b.cols)).sum := by
        rw [houter]
    _ = ((stepBy b.rows b.block_y).map (fun y => min b.block_y (b.rows - y))).sum * b.cols := by
        rw [← List.sum_map_mul_right]
    _ = b.rows * b.cols := by rw [stepBy_clipped_sum b.block_y hy b.rows]

theorem full_pass_fst (b : Band) (st0 : AccState) :
    (full_pass b st0).1 = process_buffer b.nodata st0 (read_band_as b) := by
  unfold full_pass process_buffer
  generalize read_band_as b = l
  suffices h : ∀ (l : List (Option ℚ)) (st : AccState) (vs : List ℚ),
      (l.foldl (fun acc v =>
        match classify b.nodata v with
        | .validSample q => (processVal b.nodata acc.1 v, acc.2 ++ [q])
        | _ => (processVal b.nodata acc.1 v, acc.2)) (st, vs)).1
        = l.foldl (processVal b.nodata) st by
    exact h l st0 []
  intro l
  induction l with
  | nil => intro st vs; rfl
  | cons a t ih =>
    intro st vs
    cases hc : classify b.nodata a <;> simp [List.foldl_cons, hc, ih]

theorem full_pass_snd (b : Band) (st0 : AccState) :
    (full_pass b st0).2 = validSamples b := by
  unfold full_pass validSamples
  generalize read_band_as b = l
  suffices h : ∀ (l : List (Option ℚ)) (st : AccState) (vs : List ℚ),
      (l.foldl (fun acc v =>
        match classify b.nodata v with
        | .validSample q => (processVal b.nodata acc.1 v, acc.2 ++ [q])
        | _ => (processVal b.nodata acc.1 v, acc.2)) (st, vs)).2
        = vs ++ l.filterMap (fun v =>
            match classify b.nodata v with
            | .validSample q => some q
            | _ => none) by
    simpa using h l st0 []
  intro l
  induction l with
  | nil => intro st vs; simp
  | cons a t ih =>
    intro st vs
    cases hc : classify b.nodata a <;>
      simp [List.foldl_cons, List.filterMap_cons, hc, ih]

theorem window_pass_single (b : Band) (st0 : AccState) :
    window_pass b st0 [⟨0, 0, b.cols, b.rows⟩] = process_buffer b.nodata st0 (read_band_as b) := rfl

theorem pass_acc_eq_window (tMin tMax : ℚ) (b : Band) (quantiles : Bool) :
    pass_acc tMin tMax b quantiles
      = window_pass b (initState tMin tMax)
          (if quantiles then [⟨0, 0, b.cols, b.rows⟩]
           else if b.block_y = 1 then specRowWindows b else specBlockWindows b) := by
  unfold pass_acc
  cases quantiles with
  | true =>
    simp only [if_true]
    rw [full_pass_fst, window_pass_single]
  | false =>
    simp only [Bool.false_eq_true, if_false]
    by_cases h : b.block_y = 1 <;>
      simp [h, row_wise_pass_eq_window, block_wise_pass_eq_window]

theorem compute_stats_generic_finalize (tMin tMax : ℚ) (b : Band) (quantiles : Bool) :
    ∃ a m c, compute_stats_generic tMin tMax b quantiles
      = finalize b.cols b.rows (pass_acc tMin tMax b quantiles) a m c := by
  unfold compute_stats_generic pass_acc
  cases quantiles with
  | true =>
    simp only [if_true]
    by_cases h : (full_pass b (initState tMin tMax)).2.isEmpty <;> simp [h]
  | false =>
    simp only [Bool.false_eq_true, if_false]
    by_cases h : b.block_y = 1 <;> simp [h]

theorem processVal_valid_le (nd : Option ℚ) (st : AccState) (v : Option ℚ) :
    st.valid_count ≤ (processVal nd st v).valid_count := by
  unfold processVal
  cases classify nd v <;> simp

theorem processVal_valid_fixed (nd : Option ℚ) (st : AccState) (v : Option ℚ)
    (h : (processVal nd st v).valid_count = st.valid_count) :
    (processVal nd st v).sum = st.sum ∧ (processVal nd st v).sum_sq = st.sum_sq ∧
    (processVal nd st v).min = st.min ∧ (processVal nd st v).max = st.max := by
  unfold processVal at *
  cases hc : classify nd v <;> rw [hc] at h <;> simp_all

theorem process_buffer_valid_le (nd : Option ℚ) (st : AccState) (l : List (Option ℚ)) :
    st.valid_count ≤ (process_buffer nd st l).valid_count := by
  induction l generalizing st with
  | nil => simp [process_buffer]
  | cons a t ih =>
    have h1 : process_buffer nd st (a :: t) = process_buffer nd (processVal nd st a) t := rfl
    rw [h1]
    exact le_trans (processVal_valid_le nd st a) (ih (processVal nd st a))

theorem process_buffer_valid_fixed (nd : Option ℚ) (st : AccState) (l : List (Option ℚ))
    (h : (process_buffer nd st l).valid_count = st.valid_count) :
    (process_buffer nd st l).sum = st.sum ∧ (process_buffer nd st l).sum_sq = st.sum_sq ∧
    (process_buffer nd st l).min = st.min ∧ (process_buffer nd st l).max = st.max := by
  induction l generalizing st with
  | nil => simp [process_buffer]
  | cons a t ih =>
    have h1 : process_buffer nd st (a :: t) = process_buffer nd (processVal nd st a) t := rfl
    rw [h1] at h ⊢
    have hle1 := processVal_valid_le nd st a
    have hle2 := process_buffer_valid_le nd (processVal nd st a) t
    have hfix : (processVal nd st a).valid_count = st.valid_count := by omega
    have hv := processVal_valid_fixed nd st a hfix
    have hrec := ih (processVal nd st a) (by omega)
    exact ⟨hrec.1.trans hv.1, hrec.2.1.trans hv.2.1,
      hrec.2.2.1.trans hv.2.2.1, hrec.2.2.2.trans hv.2.2.2⟩

theorem window_pass_valid_le (b : Band) (st0 : AccState) (ws : List Window) :
    st0.valid_count ≤ (window_pass b st0 ws).valid_count := by
  induction ws generalizing st0 with
  | nil => simp [window_pass]
  | cons w t ih =>
    have h1 : window_pass b st0 (w :: t)
        = window_pass b (process_buffer b.nodata st0 (read_as b w.x w.y w.width w.height)) t := rfl
    rw [h1]
    exact le_trans (process_buffer_valid_le _ _ _) (ih _)

theorem window_pass_valid_fixed (b : Band) (st0 : AccState) (ws : List Window)
    (h : (window_pass b st0 ws).valid_count = st0.valid_count) :
    (window_pass b st0 ws).sum = st0.sum ∧ (window_pass b st0 ws).sum_sq = st0.sum_sq ∧
    (window_pass b st0 ws).min = st0.min ∧ (window_pass b st0 ws).max = st0.max := by
  induction ws generalizing st0 with
  | nil => simp [window_pass]
  | cons w t ih =>
    have h1 : window_pass b st0 (w :: t)
        = window_pass b (process_buffer b.nodata st0 (read_as b w.x w.y w.width w.height)) t := rfl
    rw [h1] at h ⊢
    have hle1 := process_buffer_valid_le b.nodata st0 (read_as b w.x w.y w.width w.height)
    have hle2 := window_pass_valid_le b
      (process_buffer b.nodata st0 (read_as b w.x w.y w.width w.height)) t
    have hfix : (process_buffer b.nodata st0 (read_as b w.x w.y w.width w.height)).valid_count
        = st0.valid_count := by omega
    have hv := process_buffer_valid_fixed b.nodata st0
      (read_as b w.x w.y w.width w.height) hfix
    have hrec := ih (process_buffer b.nodata st0 (read_as b w.x w.y w.width w.height))
      (by omega)
    exact ⟨hrec.1.trans hv.1, hrec.2.1.trans hv.2.1,
      hrec.2.2.1.trans hv.2.2.1, hrec.2.2.2.trans hv.2.2.2⟩

/-! ### Claim theorems -/

/-- Claim C1: after `compute_stats_generic` (quantiles not requested)
completes, `valid_count + nodata_count + nan_count = rows × cols` — every
sample counted exactly once — and the identical equality holds for the
row-wise pass and for the block-wise pass separately, so it is independent
of which of the two strategies was chosen. -/
theorem c1_exact_accounting (tMin tMax : ℚ) (b : Band)
    (hx : 0 < b.block_x) (hy : 0 < b.block_y) :
    ((compute_stats_generic tMin tMax b false).valid_count
        + (compute_stats_generic tMin tMax b false).nodata_count
        + (compute_stats_generic tMin tMax b false).nan_count = b.rows * b.cols) ∧
    countsTotal (row_wise_pass b (initState tMin tMax)) = b.rows * b.cols ∧
    countsTotal (block_wise_pass b (initState tMin tMax)) = b.rows * b.cols := by
  have hrow : countsTotal (row_wise_pass b (initState tMin tMax)) = b.rows * b.cols := by
    rw [row_wise_pass_eq_window, countsTotal_window_pass, countsTotal_initState,
      specRowWindows_area]
    omega
  have hblock : countsTotal (block_wise_pass b (initState tMin tMax)) = b.rows * b.cols := by
    rw [block_wise_pass_eq_window, countsTotal_window_pass, countsTotal_initState,
      specBlockWindows_area b hx hy]
    omega
  refine ⟨?_, hrow, hblock⟩
  obtain ⟨a, m, c, hfin⟩ := compute_stats_generic_finalize tMin tMax b false
  rw [hfin]
  have hpass : countsTotal (pass_acc tMin tMax b false) = b.rows * b.cols := by
    by_cases h : b.block_y = 1 <;> simp [pass_acc, h, hrow, hblock]
  simpa [finalize, countsTotal] using hpass

/-- Witness for C1 at the concrete tiled band (block-wise strategy). -/
theorem c1_exact_accounting_witness :
    0 < bandTiled.block_x ∧ 0 < bandTiled.block_y ∧
    ((compute_stats_generic f32MinValue f32MaxValue bandTiled false).valid_count
        + (compute_stats_generic f32MinValue f32MaxValue bandTiled false).nodata_count
        + (compute_stats_generic f32MinValue f32MaxValue bandTiled false).nan_count
      = bandTiled.rows * bandTiled.cols) :=
  ⟨by decide, by decide,
    (c1_exact_accounting f32MinValue f32MaxValue bandTiled (by decide) (by decide)).1⟩

/-- Claim C5: the spec's 2×2 scenario — samples `[1, 2, NaN, 9]`, nodata 9 —
yields `valid_count 2`, `nan_count 1`, `nodata_count 1`, `mean 3/2`, `min 1`,
`max 2`, `variance 1/4`, and the standard deviation (the square root the
source takes of the variance, rast_qaqc.rs line 214) is `1/2`. -/
theorem c5_scenario :
    (compute_stats_generic f32MinValue f32MaxValue bandC5 false).valid_count = 2 ∧
    (compute_stats_generic f32MinValue f32MaxValue bandC5 false).nan_count = 1 ∧
    (compute_stats_generic f32MinValue f32MaxValue bandC5 false).nodata_count = 1 ∧
    (compute_stats_generic f32MinValue f32MaxValue bandC5 false).mean = some (3 / 2) ∧
    (compute_stats_generic f32MinValue f32MaxValue bandC5 false).min = 1 ∧
    (compute_stats_generic f32MinValue f32MaxValue bandC5 false).max = 2 ∧
    (compute_stats_generic f32MinValue f32MaxValue bandC5 false).variance = some (1 / 4) ∧
    ((compute_stats_generic f32MinValue f32MaxValue bandC5 false).variance.map
      (fun v => Real.sqrt (v : ℝ))) = some (1 / 2 : ℝ) := by
  have h2 : List.range 2 = [0, 1] := rfl
  have h1 : List.range 1 = [0] := rfl
  have hvar :
      (compute_stats_generic f32MinValue f32MaxValue bandC5 false).variance = some (1 / 4) := by
    norm_num [compute_stats_generic, row_wise_pass, read_as, process_buffer, processVal,
      classify, initState, finalize, ratAbs, fmin, fmax, epsilon, f32MaxValue, f32MinValue,
      bandC5, h2, h1]
  have hsqrt : ((compute_stats_generic f32MinValue f32MaxValue bandC5 false).variance.map
      (fun v => Real.sqrt (v : ℝ))) = some (1 / 2 : ℝ) := by
    rw [hvar]
    show some (Real.sqrt ((1 / 4 : ℚ) : ℝ)) = some (1 / 2 : ℝ)
    congr 1
    rw [show (((1 / 4 : ℚ) : ℝ)) = (1 / 2 : ℝ) ^ 2 by norm_num]
    exact Real.sqrt_sq (by norm_num)
  refine ⟨?_, ?_, ?_, ?_, ?_, ?_, hvar, hsqrt⟩ <;>
    norm_num [compute_stats_generic, row_wise_pass, read_as, process_buffer, processVal,
      classify, initState, finalize, ratAbs, fmin, fmax, epsilon, f32MaxValue, f32MinValue,
      bandC5, h2, h1]

/-- Claim C8: a band pass ending with zero valid samples leaves the running
sum at zero, so the final `mean = sum / valid_count` is the float `0.0/0.0 =
NaN` (modelled `none`), and `compute_stats_generic` returns normally with
that value rather than raising an error. -/
theorem c8_zero_valid_mean_nan (tMin tMax : ℚ) (b : Band) (quantiles : Bool)
    (h : (pass_acc tMin tMax b quantiles).valid_count = 0) :
    (pass_acc tMin tMax b quantiles).sum = 0 ∧
    (compute_stats_generic tMin tMax b quantiles).mean = none := by
  have he := pass_acc_eq_window tMin tMax b quantiles
  have hsum : (pass_acc tMin tMax b quantiles).sum = 0 := by
    rw [he] at h ⊢
    have hfix := window_pass_valid_fixed b (initState tMin tMax) _ (by rw [h]; rfl)
    rw [hfix.1]
    rfl
  obtain ⟨a, m, c, hfin⟩ := compute_stats_generic_finalize tMin tMax b quantiles
  rw [hfin]
  exact ⟨hsum, by simp [finalize, h]⟩

/-- Witness for C8 at the all-NaN scanline band. -/
theorem c8_zero_valid_mean_nan_witness :
    (pass_acc f32MinValue f32MaxValue bandAllNaN false).valid_count = 0 ∧
    (compute_stats_generic f32MinValue f32MaxValue bandAllNaN false).mean = none :=
  ⟨by decide,
    (c8_zero_valid_mean_nan f32MinValue f32MaxValue bandAllNaN false (by decide)).2⟩

/-- Claim C10: with zero valid samples the running min/max are never touched,
so `compute_stats_generic` returns `min = tMax` (the element type's largest
finite value, `T::max_value()`) and `max = tMin` (its smallest,
`T::min_value()`); both are finite — never NaN — so `max < min` in the
result, and no error is raised. -/
theorem c10_zero_valid_min_max (tMin tMax : ℚ) (b : Band) (quantiles : Bool)
    (hlt : tMin < tMax) (h : (pass_acc tMin tMax b quantiles).valid_count = 0) :
    (compute_stats_generic tMin tMax b quantiles).min = tMax ∧
    (compute_stats_generic tMin tMax b quantiles).max = tMin ∧
    (compute_stats_generic tMin tMax b quantiles).max
      < (compute_stats_generic tMin tMax b quantiles).min := by
  have he := pass_acc_eq_window tMin tMax b quantiles
  have hfix := window_pass_valid_fixed b (initState tMin tMax) _ (by rw [← he, h]; rfl)
  have hmin : (pass_acc tMin tMax b quantiles).min = tMax := by rw [he, hfix.2.2.1]; rfl
  have hmax : (pass_acc tMin tMax b quantiles).max = tMin := by rw [he, hfix.2.2.2]; rfl
  obtain ⟨a, m, c, hfin⟩ := compute_stats_generic_finalize tMin tMax b quantiles
  rw [hfin]
  refine ⟨by simp [finalize, hmin], by simp [finalize, hmax], ?_⟩
  simpa [finalize, hmin, hmax] using hlt

/-- Witness for C10 at the all-NaN scanline band under the quantile path. -/
theorem c10_zero_valid_min_max_witness :
    f32MinValue < f32MaxValue ∧
    (pass_acc f32MinValue f32MaxValue bandAllNaN true).valid_count = 0 ∧
    (compute_stats_generic f32MinValue f32MaxValue bandAllNaN true).min = f32MaxValue ∧
    (compute_stats_generic f32MinValue f32MaxValue bandAllNaN true).max = f32MinValue :=
  ⟨by norm_num [f32MinValue, f32MaxValue], by decide,
    (c10_zero_valid_min_max f32MinValue f32MaxValue bandAllNaN true
      (by norm_num [f32MinValue, f32MaxValue]) (by decide)).1,
    (c10_zero_valid_min_max f32MinValue f32MaxValue bandAllNaN true
      (by norm_num [f32MinValue, f32MaxValue]) (by decide)).2.1⟩

/-- Claim C9: within one multi-band file, band failures are not isolated:
with every band before the failing one succeeding, `compute_all_bands`
returns exactly the failing band's error for the whole file and produces no
stats records at all — the earlier bands' results are discarded. -/
theorem c9_band_failure_aborts (pre : List RasterStats) (e : String)
    (rest : List (Except String RasterStats)) :
    compute_all_bands (pre.map Except.ok ++ Except.error e :: rest) = .error e := by
  induction pre with
  | nil => rfl
  | cons s t ih => simp [compute_all_bands, ih]

/-- Claim C6: the read strategy is selected once per band.  Without
quantiles and with block height 1, `compute_stats_generic` is the window
pass over the spec's row windows — one scanline `(0, row, cols, 1)` per
row, `row < rows`.  Otherwise (quantiles not requested, tiled layout) it is
the window pass over the spec's block-grid windows — block-aligned origins
inside the band, width/height clipped to the remaining columns/rows at the
grid edge — and in both cases every window feeds the same
classification-and-accumulation step (`window_pass` folds `process_buffer`
over the windows). -/
theorem c6_strategy_selection (tMin tMax : ℚ) (b : Band)
    (hx : 0 < b.block_x) (hy : 0 < b.block_y) :
    (b.block_y = 1 →
      compute_stats_generic tMin tMax b false
        = finalize b.cols b.rows
            (window_pass b (initState tMin tMax) (specRowWindows b)) none none none ∧
      ∀ w ∈ specRowWindows b,
        w.x = 0 ∧ w.width = b.cols ∧ w.height = 1 ∧ w.y < b.rows) ∧
    (b.block_y ≠ 1 →
      compute_stats_generic tMin tMax b false
        = finalize b.cols b.rows
            (window_pass b (initState tMin tMax) (specBlockWindows b)) none none none ∧
      ∀ w ∈ specBlockWindows b,
        w.width = min b.block_x (b.cols - w.x) ∧
        w.height = min b.block_y (b.rows - w.y) ∧
        b.block_x ∣ w.x ∧ b.block_y ∣ w.y ∧ w.x < b.cols ∧ w.y < b.rows) := by
  constructor
  · intro h1
    constructor
    · rw [show compute_stats_generic tMin tMax b false
          = finalize b.cols b.rows (row_wise_pass b (initState tMin tMax)) none none none by
        simp [compute_stats_generic, h1]]
      rw [row_wise_pass_eq_window]
    · intro w hw
      rcases List.mem_map.mp hw with ⟨row, hrow, rfl⟩
      exact ⟨rfl, rfl, rfl, List.mem_range.mp hrow⟩
  · intro h1
    constructor
    · rw [show compute_stats_generic tMin tMax b false
          = finalize b.cols b.rows (block_wise_pass b (initState tMin tMax)) none none none by
        simp [compute_stats_generic, h1]]
      rw [block_wise_pass_eq_window]
    · intro w hw
      rcases List.mem_flatMap.mp hw with ⟨y, hy2, hw2⟩
      rcases List.mem_map.mp hw2 with ⟨x, hx2, rfl⟩
      have hxm := mem_stepBy b.cols b.block_x x hx hx2
      have hym := mem_stepBy b.rows b.block_y y hy hy2
      exact ⟨rfl, rfl, hxm.1, hym.1, hxm.2, hym.2⟩

/-- Witness for C6 at the concrete tiled band (`block_y = 2 ≠ 1`). -/
theorem c6_strategy_selection_witness :
    0 < bandTiled.block_x ∧ 0 < bandTiled.block_y ∧
    (bandTiled.block_y ≠ 1 →
      compute_stats_generic f32MinValue f32MaxValue bandTiled false
        = finalize bandTiled.cols bandTiled.rows
            (window_pass bandTiled (initState f32MinValue f32MaxValue)
              (specBlockWindows bandTiled)) none none none ∧
      ∀ w ∈ specBlockWindows bandTiled,
        w.width = min bandTiled.block_x (bandTiled.cols - w.x) ∧
        w.height = min bandTiled.block_y (bandTiled.rows - w.y) ∧
        bandTiled.block_x ∣ w.x ∧ bandTiled.block_y ∣ w.y ∧
        w.x < bandTiled.cols ∧ w.y < bandTiled.rows) :=
  ⟨by decide, by decide,
    (c6_strategy_selection f32MinValue f32MaxValue bandTiled (by decide) (by decide)).2⟩

theorem rat_floor_eq_int_floor (q : ℚ) : q.floor = ⌊q⌋ :=
  (Rat.floor_def' q).trans Rat.floor_def.symm

theorem rustRound_toNat_le (n : ℕ) (h1 : 1 ≤ n) (p : ℚ) (hp0 : 0 ≤ p) (hp : p ≤ 3 / 4) :
    (rustRound ((n - 1 : ℕ) * p)).toNat ≤ n - 1 := by
  unfold rustRound
  rw [rat_floor_eq_int_floor, Int.toNat_le]
  have hcast : ((n - 1 : ℕ) : ℚ) = (n : ℚ) - 1 := by
    push_cast [h1]
    ring
  have hn1 : (0 : ℚ) ≤ (n : ℚ) - 1 := by
    have : (1 : ℚ) ≤ (n : ℚ) := by exact_mod_cast h1
    linarith
  have hlt : ((n - 1 : ℕ) : ℚ) * p + 1 / 2 < ((n - 1 : ℕ) : ℤ) + 1 := by
    have hmul : ((n : ℚ) - 1) * p ≤ ((n : ℚ) - 1) * (3 / 4) :=
      mul_le_mul_of_nonneg_left hp hn1
    have hcast2 : (((n - 1 : ℕ) : ℤ) : ℚ) = (n : ℚ) - 1 := by
      push_cast [h1]
      ring
    rw [hcast]
    push_cast [hcast2]
    linarith
  have hfl : ⌊((n - 1 : ℕ) : ℚ) * p + 1 / 2⌋ < ((n - 1 : ℕ) : ℤ) + 1 :=
    Int.floor_lt.mpr (by exact_mod_cast hlt)
  exact Int.lt_add_one_iff.mp hfl

/-- Claim C7: when quantiles are requested and the band has `n ≥ 1` valid
samples, the whole band is materialised, the valid samples (NaN and nodata
excluded) are sorted in ascending order, and Q1/median/Q3 are the sorted
values at index `round((n-1)·p)` clamped into `[0, n-1]` for
`p = 1/4, 1/2, 3/4`; the rounded index is already within bounds (the clamp
is the identity) and the lookup always yields a value. -/
theorem c7_quantiles (tMin tMax : ℚ) (b : Band) (n : ℕ)
    (hn : (validSamples b).length = n) (h1 : 1 ≤ n) :
    List.Sorted (· ≤ ·) ((validSamples b).insertionSort (· ≤ ·)) ∧
    ((validSamples b).insertionSort (· ≤ ·)).Perm (validSamples b) ∧
    (∀ p : ℚ, 0 ≤ p → p ≤ 3 / 4 →
      min (rustRound ((n - 1 : ℕ) * p)).toNat (n - 1)
        = (rustRound ((n - 1 : ℕ) * p)).toNat) ∧
    (compute_stats_generic tMin tMax b true).q1
      = some (((validSamples b).insertionSort (· ≤ ·)).get?
          (min (rustRound ((n - 1 : ℕ) * (1 / 4))).toNat (n - 1))) ∧
    (compute_stats_generic tMin tMax b true).median
      = some (((validSamples b).insertionSort (· ≤ ·)).get?
          (min (rustRound ((n - 1 : ℕ) * (1 / 2))).toNat (n - 1))) ∧
    (compute_stats_generic tMin tMax b true).q3
      = some (((validSamples b).insertionSort (· ≤ ·)).get?
          (min (rustRound ((n - 1 : ℕ) * (3 / 4))).toNat (n - 1))) ∧
    (∀ p : ℚ, 0 ≤ p → p ≤ 3 / 4 →
      ∃ v, ((validSamples b).insertionSort (· ≤ ·)).get?
          (min (rustRound ((n - 1 : ℕ) * p)).toNat (n - 1)) = some v) := by
  have hperm : ((validSamples b).insertionSort (· ≤ ·)).Perm (validSamples b) :=
    List.perm_insertionSort _ _
  have hlen : ((validSamples b).insertionSort (· ≤ ·)).length = n := by
    rw [hperm.length_eq, hn]
  have hclamp : ∀ p : ℚ, 0 ≤ p → p ≤ 3 / 4 →
      min (rustRound ((n - 1 : ℕ) * p)).toNat (n - 1)
        = (rustRound ((n - 1 : ℕ) * p)).toNat := by
    intro p hp0 hp
    exact Nat.min_eq_left (rustRound_toNat_le n h1 p hp0 hp)
  have hsnd : (full_pass b (initState tMin tMax)).2 = validSamples b :=
    full_pass_snd b (initState tMin tMax)
  have hne : ((full_pass b (initState tMin tMax)).2.isEmpty) = false := by
    rw [hsnd]
    cases hl : validSamples b with
    | nil => rw [hl] at hn; simp at hn; omega
    | cons a t => simp
  have hq : ∀ p : ℚ, 0 ≤ p → p ≤ 3 / 4 →
      percentile ((validSamples b).insertionSort (· ≤ ·)) p
        = ((validSamples b).insertionSort (· ≤ ·)).get?
            (min (rustRound ((n - 1 : ℕ) * p)).toNat (n - 1)) := by
    intro p hp0 hp
    unfold percentile
    have hse : ((validSamples b).insertionSort (· ≤ ·)).isEmpty = false := by
      cases hl : (validSamples b).insertionSort (· ≤ ·) with
      | nil => rw [hl] at hlen; simp at hlen; omega
      | cons a t => simp
    rw [hse]
    simp only [Bool.false_eq_true, if_false]
    rw [hlen, hclamp p hp0 hp]
  have hbranch : compute_stats_generic tMin tMax b true
      = finalize b.cols b.rows (full_pass b (initState tMin tMax)).1
          (some (percentile ((validSamples b).insertionSort (· ≤ ·)) (1 / 4)))
          (some (percentile ((validSamples b).insertionSort (· ≤ ·)) (1 / 2)))
          (some (percentile ((validSamples b).insertionSort (· ≤ ·)) (3 / 4))) := by
    have hneV : (validSamples b).isEmpty = false := by rw [← hsnd]; exact hne
    unfold compute_stats_generic
    simp only [if_true, hne, hneV, Bool.false_eq_true, if_false, hsnd]
  refine ⟨List.sorted_insertionSort _ _, hperm, hclamp, ?_, ?_, ?_, ?_⟩
  · rw [hbranch]
    simp only [finalize]
    rw [hq (1 / 4) (by norm_num) (by norm_num)]
  · rw [hbranch]
    simp only [finalize]
    rw [hq (1 / 2) (by norm_num) (by norm_num)]
  · rw [hbranch]
    simp only [finalize]
    rw [hq (3 / 4) (by norm_num) (by norm_num)]
  · intro p hp0 hp
    have hidx : min (rustRound ((n - 1 : ℕ) * p)).toNat (n - 1)
        < ((validSamples b).insertionSort (· ≤ ·)).length := by
      rw [hlen]
      have := rustRound_toNat_le n h1 p hp0 hp
      omega
    exact ⟨_, List.get?_eq_get hidx⟩

/-- Witness for C7 at the 2×2 scenario band (2 valid samples). -/
theorem c7_quantiles_witness :
    (validSamples bandC5).length = 2 ∧ 1 ≤ 2 ∧
    (compute_stats_generic f32MinValue f32MaxValue bandC5 true).q1
      = some (((validSamples bandC5).insertionSort (· ≤ ·)).get?
          (min (rustRound ((2 - 1 : ℕ) * (1 / 4))).toNat (2 - 1))) := by
  have h2 : List.range 2 = [0, 1] := rfl
  have hn : (validSamples bandC5).length = 2 := by
    norm_num [validSamples, read_band_as, read_as, classify, ratAbs, epsilon, bandC5, h2,
      List.filterMap_cons]
  exact ⟨hn, by norm_num,
    (c7_quantiles f32MinValue f32MaxValue bandC5 2 hn (by norm_num)).2.2.2.1⟩

theorem conv_partition_length {P : Type} (files : List P)
    (conv : P → Except String String) :
    (files.filterMap (fun p =>
        match conv p with
        | .ok o => some (p, o)
        | .error _ => none)).length
      + (files.filterMap (fun p =>
          match conv p with
          | .error e => some (p, e)
          | .ok _ => none)).length
      = files.length := by
  induction files with
  | nil => rfl
  | cons a t ih =>
    cases hc : conv a <;> simp [List.filterMap_cons, hc] <;> omega

/-- Claim C2 (refuted by the code): `batch_qaqc` writes the result table to
`<directory>/qaqc.parquet` for both output formats — the hardcoded
`directory.join("qaqc.parquet")` of rast_qaqc.rs line 406 — so for CSV
output the file name does not carry the requested `csv` extension; a
concrete directory run with CSV output returns the `qaqc.parquet` target. -/
theorem c2_output_name_mismatch :
    qaqcOutputFileName .csv = "qaqc.parquet" ∧
    qaqcOutputFileName .csv ≠ "qaqc." ++ formatName .csv ∧
    qaqcOutputFileName .parquet = "qaqc." ++ formatName .parquet ∧
    batch_qaqc demoEntries [0, 1] (fun p : ℕ => (Except.ok p : Except String ℕ)) 100 .csv
      = .ok ("qaqc.parquet", [0, 1]) := by
  have hqf : qaqcFiles demoEntries = [0, 1] := by decide
  refine ⟨rfl, by decide, rfl, ?_⟩
  unfold batch_qaqc
  rw [hqf]
  norm_num [nSampleOf, clampPct, qaqcOutputFileName]
  simp

/-- Claim C3 (amended): in the parallel batch runner (`batch_convert`) every
per-file error is captured as a `(path, message)` pair in the failure set
and does not abort sibling files — successes and failures together exhaust
the dispatched file list.  In the sampling-based QAQC path (`batch_qaqc`) a
failed file does not abort its siblings either, but its error is discarded
(`Err(_) => None`), not captured: the output is exactly the successes of
all sampled files. -/
theorem c3_per_file_isolation {P D : Type}
    (entries : List (FsEntry P)) (extensions : List String)
    (conv : P → Except String String) (s : BatchSummary P)
    (h : batch_convert true true entries extensions conv = .ok s) :
    (s.failed = ((entries.filter (fun e => extMatches extensions e.ext)).map
        (fun e => e.path)).filterMap (fun p =>
          match conv p with
          | .error e => some (p, e)
          | .ok _ => none)) ∧
    (s.successful = ((entries.filter (fun e => extMatches extensions e.ext)).map
        (fun e => e.path)).filterMap (fun p =>
          match conv p with
          | .ok o => some (p, o)
          | .error _ => none)) ∧
    s.successful.length + s.failed.length
      = ((entries.filter (fun e => extMatches extensions e.ext)).map
          (fun e => e.path)).length ∧
    (∀ (qentries : List (FsEntry P)) (shuffled : List P)
        (compute : P → Except String D) (pct : ℚ) (fmt : OutputFormat)
        (out : String × List D),
      batch_qaqc qentries shuffled compute pct fmt = .ok out →
      out.2 = (shuffled.take (nSampleOf pct (qaqcFiles qentries).length)).filterMap
          (fun p =>
            match compute p with
            | .ok d => some d
            | .error _ => none)) := by
  unfold batch_convert at h
  simp only [Bool.not_true, Bool.false_eq_true, if_false] at h
  by_cases hf : ((entries.filter (fun e => extMatches extensions e.ext)).map
      (fun e => e.path)).isEmpty
  · rw [if_pos hf] at h
    exact absurd h (by simp)
  · rw [if_neg hf] at h
    have hs := (Except.ok.injEq _ _).mp h.symm
    subst hs
    have hfailEq : ∀ s2 : BatchSummary P, s2.failed = s2.failed := fun _ => rfl
    have hF : (((entries.filter (fun e => extMatches extensions e.ext)).map
          (fun e => e.path)).map (fun p =>
            match conv p with
            | .ok output => Except.ok (p, output)
            | .error e => Except.error (p, e))).filterMap (fun r =>
              match r with
              | .ok _ => none
              | .error f => some f)
        = ((entries.filter (fun e => extMatches extensions e.ext)).map
            (fun e => e.path)).filterMap (fun p =>
              match conv p with
              | .error e => some (p, e)
              | .ok _ => none) := by
      simp only [List.filterMap_map]
      congr 1
      funext p
      simp only [Function.comp_apply]
      cases conv p.path <;> rfl
    have hS : (((entries.filter (fun e => extMatches extensions e.ext)).map
          (fun e => e.path)).map (fun p =>
            match conv p with
            | .ok output => Except.ok (p, output)
            | .error e => Except.error (p, e))).filterMap (fun r =>
              match r with
              | .ok s => some s
              | .error _ => none)
        = ((entries.filter (fun e => extMatches extensions e.ext)).map
            (fun e => e.path)).filterMap (fun p =>
              match conv p with
              | .ok o => some (p, o)
              | .error _ => none) := by
      simp only [List.filterMap_map]
      congr 1
      funext p
      simp only [Function.comp_apply]
      cases conv p.path <;> rfl
    refine ⟨hF, hS, ?_, ?_⟩
    · show (List.filterMap _ _).length + (List.filterMap _ _).length = _
      rw [hS, hF, conv_partition_length]
    · intro qentries shuffled compute pct fmt out hq
      unfold batch_qaqc at hq
      by_cases h0 : (qaqcFiles qentries).length = 0
      · rw [if_pos h0] at hq
        exact absurd hq (by simp)
      · rw [if_neg h0] at hq
        by_cases he : ((shuffled.take (nSampleOf pct (qaqcFiles qentries).length)).filterMap
            (fun p =>
              match compute p with
              | .ok d => some d
              | .error _ => none)).isEmpty
        · rw [if_pos he] at hq
          exact absurd hq (by simp)
        · rw [if_neg he] at hq
          have hpair := (Except.ok.injEq _ _).mp hq.symm
          rw [hpair]

/-- Witness for C3: the concrete directory with a corrupt file 0; the run
returns with file 0's (path, message) pair in the failure set, file 1
converted, and the two parts exhausting the matching files. -/
theorem c3_per_file_isolation_witness :
    batch_convert true true demoEntries cog_extensions demoConverter
      = .ok { successful := [(1, "converted"), (3, "converted")],
              failed := [(0, "corrupt file")] } ∧
    ({ successful := [(1, "converted"), (3, "converted")],
       failed := [(0, "corrupt file")] } : BatchSummary ℕ).successful.length
      + ({ successful := [(1, "converted"), (3, "converted")],
           failed := [(0, "corrupt file")] } : BatchSummary ℕ).failed.length
      = ((demoEntries.filter (fun e => extMatches cog_extensions e.ext)).map
          (fun e => e.path)).length := by
  have h : batch_convert true true demoEntries cog_extensions demoConverter
      = .ok { successful := [(1, "converted"), (3, "converted")],
              failed := [(0, "corrupt file")] } := by decide
  exact ⟨h, (c3_per_file_isolation (D := ℕ) demoEntries cog_extensions demoConverter _ h).2.2.1⟩

/-- Counterexample to C3 as stated: in the QAQC path the failing file's
`(path, message)` pair appears nowhere — two runs that differ only in the
failing file's error message are indistinguishable, and the output carries
only the sibling's frame. -/
theorem c3_counterexample :
    batch_qaqc demoEntries [0, 1] demoComputeA 100 OutputFormat.csv
      = batch_qaqc demoEntries [0, 1] demoComputeB 100 OutputFormat.csv ∧
    batch_qaqc demoEntries [0, 1] demoComputeA 100 OutputFormat.csv
      = .ok ("qaqc.parquet", [1]) ∧
    ("read failure A" : String) ≠ "read failure B" := by
  have hqf : qaqcFiles demoEntries = [0, 1] := by decide
  have hn : nSampleOf 100 ([0, 1] : List ℕ).length = 2 := by
    norm_num [nSampleOf, clampPct]
    decide
  have hA : batch_qaqc demoEntries [0, 1] demoComputeA 100 OutputFormat.csv
      = .ok ("qaqc.parquet", [1]) := by
    unfold batch_qaqc
    rw [hqf, if_neg (by decide : ¬([0, 1] : List ℕ).length = 0), hn]
    rfl
  have hB : batch_qaqc demoEntries [0, 1] demoComputeB 100 OutputFormat.csv
      = .ok ("qaqc.parquet", [1]) := by
    unfold batch_qaqc
    rw [hqf, if_neg (by decide : ¬([0, 1] : List ℕ).length = 0), hn]
    rfl
  exact ⟨hA.trans hB.symm, hA, by decide⟩

/-- Claim C4 (amended): with `pct_check = 0` on a directory containing at
least one matching raster file, the sampled set is empty (`n_sample = 0`)
and the run always fails the `assert!(!dfs.is_empty())` panic
(`assertNoDataframes`) — it is not a no-op and not the NoFilesFound
error. -/
theorem c4_pct_zero_asserts {P D : Type} (entries : List (FsEntry P))
    (shuffled : List P) (compute : P → Except String D) (fmt : OutputFormat)
    (h : 0 < (qaqcFiles entries).length) :
    nSampleOf 0 (qaqcFiles entries).length = 0 ∧
    batch_qaqc entries shuffled compute 0 fmt = .error .assertNoDataframes := by
  have hn : nSampleOf 0 (qaqcFiles entries).length = 0 := by
    norm_num [nSampleOf, clampPct]
  refine ⟨hn, ?_⟩
  unfold batch_qaqc
  rw [if_neg (by omega), hn]
  simp

/-- Witness for C4 (amended) at the concrete directory. -/
theorem c4_pct_zero_asserts_witness :
    0 < (qaqcFiles demoEntries).length ∧
    batch_qaqc demoEntries [0, 1] demoComputeA 0 OutputFormat.csv
      = .error QaqcError.assertNoDataframes :=
  ⟨by decide,
    (c4_pct_zero_asserts demoEntries [0, 1] demoComputeA OutputFormat.csv (by decide)).2⟩

/-- Counterexample to C4 as stated: a concrete `pct_check = 0` run over a
directory with two matching files neither completes as a no-op (it returns
an error) nor fails with NoFilesFound: it fails the assertion. -/
theorem c4_counterexample :
    batch_qaqc demoEntries [0, 1] (fun p : ℕ => (Except.ok p : Except String ℕ)) 0
        OutputFormat.csv = .error QaqcError.assertNoDataframes ∧
    QaqcError.assertNoDataframes ≠ QaqcError.noFilesFound := by
  have hqf : qaqcFiles demoEntries = [0, 1] := by decide
  constructor
  · unfold batch_qaqc
    rw [hqf]
    norm_num [nSampleOf, clampPct]
  · decide

end CloudConvert
